import Mathlib

/-!
Verification development for the ng-tarbuild repository.

The tool (src/tar-build.mjs, plus an older variant of the same script kept in
the repository) flattens an Angular build-output tree, normalizes the entry
HTML document, and packages the per-app dist directory into a tar archive.

Shallow embedding conventions:
* A filesystem is a finite list of (path, content) pairs, paths being segment
  lists relative to the project root.  A directory exists iff some file lies
  strictly below its path (empty directories are not represented).
* The archive produced by tar.c is modelled as its list of file entries; the
  directory entries tar also emits obey the same path transform and are
  omitted.  File modification times are supplied by an oracle function from
  paths to naturals, mirroring stat(2).
* JavaScript String.prototype.replace with a string replacement argument
  performs replacement-pattern expansion ($$, $&, $-backtick, $-apostrophe);
  jsExpand embeds that expansion for a regex with no capture groups.
* The regex /<base href="([^"]*)"/ is embedded by findBase, which returns the
  text before the leftmost match, the captured value, and the text after the
  closing quote.  If an occurrence of the literal part has no closing quote
  anywhere to its right, no later occurrence can have one either (any later
  occurrence itself contains a quote), so returning no match is faithful.
-/

namespace NgTarbuild

/-- A filesystem path as a list of segments, relative to the project root. -/
abbrev Path := List String

/-- A filesystem: a list of files, each a path paired with its content. -/
abbrev FS := List (Path × String)

/-- Content of the file at `p`, if any (first entry wins). -/
def lookupFile (fs : FS) (p : Path) : Option String :=
  (fs.find? (fun e => e.1 == p)).map (fun e => e.2)

/-- fs.existsSync for a regular file. -/
def fileExists (fs : FS) (p : Path) : Bool :=
  (lookupFile fs p).isSome

/-- fs.existsSync for a directory: some file lies strictly below `p`. -/
def dirExists (fs : FS) (p : Path) : Bool :=
  fs.any (fun e => p.isPrefixOf e.1 && decide (p.length < e.1.length))

/-- fse.remove / fs.rmSync recursive: delete `p` and everything below it. -/
def removeTree (p : Path) (fs : FS) : FS :=
  fs.filter (fun e => !(p.isPrefixOf e.1))

/-- fs.unlinkSync: delete the file at `p`. -/
def removeFile (p : Path) (fs : FS) : FS :=
  fs.filter (fun e => !(e.1 == p))

/-- fs.writeFileSync: create or overwrite the file at `p`. -/
def setFile (p : Path) (c : String) (fs : FS) : FS :=
  (p, c) :: fs.filter (fun e => !(e.1 == p))

/-- If `pre` leads `p`, the remaining segments of `p` below `pre`. -/
def stripRoot (pre p : Path) : Option Path :=
  if pre.isPrefixOf p then some (p.drop pre.length) else none

/-- The images of the files strictly below `src`, relocated below `dest`. -/
def movedFiles (src dest : Path) (fs : FS) : FS :=
  fs.filterMap (fun e =>
    match stripRoot src e.1 with
    | some [] => none
    | some r => some (dest ++ r, e.2)
    | none => none)

/-- fse.copy src dest with overwrite: every file strictly below `src` is
copied to the same relative position below `dest`, overwriting collisions;
all other files, including the originals below `src`, are kept. -/
def copyTree (src dest : Path) (fs : FS) : FS :=
  movedFiles src dest fs ++
    fs.filter (fun e => !((movedFiles src dest fs).any (fun mv => mv.1 == e.1)))

/-! Derived paths of tar-build.mjs (lines 58-66, 112-113), relative to the
project root. -/

/-- dist directory. -/
def distDirP : Path := ["dist"]

/-- distBase = path.join(distDir, appName). -/
def distBaseP (app : String) : Path := ["dist", app]

/-- browserPath = path.join(distBase, "browser"). -/
def browserP (app : String) : Path := ["dist", app, "browser"]

/-- indexHtmlPath = path.join(distBase, "index.html"). -/
def indexP (app : String) : Path := ["dist", app, "index.html"]

/-- indexCsrPath = path.join(distBase, "index.csr.html"). -/
def csrP (app : String) : Path := ["dist", app, "index.csr.html"]

/-- ext is hardcoded to ".tar" in tar-build.mjs line 64. -/
def tarExt : String := ".tar"

/-- tarballPath = path.join(projectPath, `dist_<appName>` + ext). -/
def tarballP (app : String) : Path := ["dist_" ++ app ++ tarExt]

/-! The CLI option record of tar-build.mjs (commander opts, lines 55-66). -/

/-- Parsed CLI options of tar-build.mjs. -/
structure CliOptions where
  out : String
  rename : Option String
  noCompress : Bool
  pathOpt : String
  skipBuild : Bool
deriving DecidableEq

/-- shouldCompress = !options.noCompress (tar-build.mjs line 63).  The value
is printed in the options summary but never consulted again. -/
def shouldCompress (o : CliOptions) : Bool := !o.noCompress

/-- tarballName = `dist_<appName><ext>` (tar-build.mjs line 65). -/
def tarballName (o : CliOptions) : String := "dist_" ++ o.out ++ tarExt

/-! Step 2 of tar-build.mjs: flatten browser/* into the dist base. -/

/-- Lines 102-103: fse.copy(browserPath, distBase, overwrite) then
fse.remove(browserPath). -/
def flattenMove (app : String) (fs : FS) : FS :=
  removeTree (browserP app) (copyTree (browserP app) (distBaseP app) fs)

/-! Step 3 of tar-build.mjs: the index.html / index.csr.html normalizer
(lines 111-133), including the exact JavaScript string semantics. -/

/-- The literal part of the regex /<base href="([^"]*)"/. -/
def basePat : List Char := "<base href=\"".data

/-- Split a character list at its first double quote: the characters before
it and the characters after it, or none when no quote occurs. -/
def splitQuote : List Char → Option (List Char × List Char)
  | [] => none
  | c :: rest =>
    if c == '"' then some ([], rest)
    else match splitQuote rest with
      | some pr => some (c :: pr.1, pr.2)
      | none => none

/-- Leftmost match of /<base href="([^"]*)"/ in a character list: returns
(before, capturedValue, after) with the closing quote consumed, scanning
positions left to right exactly as the regex engine does. -/
def findBase : List Char → Option (List Char × List Char × List Char)
  | [] => none
  | c :: rest =>
    if basePat.isPrefixOf (c :: rest) then
      match splitQuote ((c :: rest).drop basePat.length) with
      | some pr => some ([], pr.1, pr.2)
      | none => none
    else match findBase rest with
      | some bva => some (c :: bva.1, bva.2.1, bva.2.2)
      | none => none

/-- baseHref = csrContent.match(/<base href="([^"]*)"/)?.[1] || '/'
(tar-build.mjs line 121).  A captured empty string is falsy in JavaScript,
so it falls through to '/' exactly like a missing attribute. -/
def extractBaseHref (s : String) : String :=
  match findBase s.data with
  | some bva => if bva.2.1.isEmpty then ("/") else String.mk bva.2.1
  | none => "/"

/-- JavaScript GetSubstitution for a replacement string and a regex with no
capture groups: "$$" yields "$", "$&" the matched text, "$" + backquote the
text before the match, "$" + apostrophe the text after the match; any other
"$" is literal. -/
def jsExpand (matched before after : List Char) : List Char → List Char
  | [] => []
  | c :: rest =>
    if c == '$' then
      match rest with
      | [] => ['$']
      | d :: rest2 =>
        if d == '$' then '$' :: jsExpand matched before after rest2
        else if d == '&' then matched ++ jsExpand matched before after rest2
        else if d == Char.ofNat 96 then before ++ jsExpand matched before after rest2
        else if d == Char.ofNat 39 then after ++ jsExpand matched before after rest2
        else '$' :: d :: jsExpand matched before after rest2
    else c :: jsExpand matched before after rest

/-- s.replace(/<base href="[^"]*"/, template): replace the leftmost match
with the expanded template (tar-build.mjs line 122). -/
def jsReplaceBase (s template : String) : String :=
  match findBase s.data with
  | none => s
  | some bva =>
    String.mk (bva.1 ++
      jsExpand (basePat ++ bva.2.1 ++ ['"']) bva.1 bva.2.2 template.data ++
      bva.2.2)

/-- updatedHtml = csrContent.replace(/<base href="[^"]*"/,
`<base href="${baseHref}"`) with baseHref extracted from the same content
(tar-build.mjs lines 121-122). -/
def updatedHtml (c : String) : String :=
  jsReplaceBase c (String.mk (basePat ++ (extractBaseHref c).data ++ ['"']))

/-- Step 3 of tar-build.mjs (lines 116-133): keep an existing index.html;
otherwise synthesize it from index.csr.html and delete the latter; otherwise
warn and continue. -/
def normalizeIndex (app : String) (fs : FS) : FS :=
  if fileExists fs (indexP app) then fs
  else match lookupFile fs (csrP app) with
    | some c => setFile (indexP app) (updatedHtml c) (removeFile (csrP app) fs)
    | none => fs

/-- Steps 2-3 run in sequence: the browser-folder existence check of line 96
exits the process (leaving the filesystem untouched) when the folder is
absent; otherwise the tree is flattened and then normalized. -/
def flattenNormalize (app : String) (fs : FS) : FS :=
  if dirExists fs (browserP app) then normalizeIndex app (flattenMove app fs)
  else fs

/-! Step 5 of tar-build.mjs: the archive packager (lines 139-163). -/

/-- One archive entry: its path inside the archive, the file content, and
the recorded modification time (none when suppressed). -/
structure TarEntry where
  path : String
  content : String
  mtime : Option Nat
deriving DecidableEq

/-- The option object passed to tar.c in tar-build.mjs lines 146-151:
gzip: false, portable: true, noMtime: true, all hardcoded. -/
structure TarCOpts where
  gzip : Bool
  portable : Bool
  noMtime : Bool
deriving DecidableEq

/-- The hardcoded tar.c options of tar-build.mjs. -/
def tarBuildOpts : TarCOpts := { gzip := false, portable := true, noMtime := true }

/-- path.join of segments with "/", as tar records entry paths. -/
def joinPath : List String → String
  | [] => ""
  | [a] => a
  | a :: b :: t => a ++ "/" ++ joinPath (b :: t)

/-- Does `s` begin with `pre`? -/
def strStarts (pre s : String) : Bool := pre.data.isPrefixOf s.data

/-- All but the first `n` characters of `s`. -/
def strDropN (s : String) (n : Nat) : String := String.mk (s.data.drop n)

/-- entry.path.replace(new RegExp(`^dist/<distFolderName>`),
`dist/<renameFolder>`) for names without regex metacharacters: an anchored
prefix replacement (tar-build.mjs lines 154-157). -/
def anchoredReplace (pre repl s : String) : String :=
  if strStarts pre s then repl ++ strDropN s pre.length else s

/-- The transform callback of tar.c (tar-build.mjs lines 152-160): rewrite
the leading `dist/<distFolderName>` to `dist/<renameFolder>` when a rename
was supplied, and leave the path alone otherwise. -/
def transformPath (distFolderName : String) (rename : Option String) (p : String) : String :=
  match rename with
  | some rn => anchoredReplace ("dist/" ++ distFolderName) ("dist/" ++ rn) p
  | none => p

/-- The files strictly below `root`. -/
def filesUnder (fs : FS) (root : Path) : List (Path × String) :=
  fs.filter (fun e => root.isPrefixOf e.1 && decide (root.length < e.1.length))

/-- tar.c of tar-build.mjs: archive every file below dist/<appName> (cwd is
the project root, the single source is `dist/<distFolderName>` with
distFolderName = basename(distBase) = appName), applying the path transform
to each entry and recording mtimes only when noMtime is off. -/
def tarCreate (opts : TarCOpts) (app : String) (rename : Option String)
    (fs : FS) (mtimeOf : Path → Nat) : List TarEntry :=
  (filesUnder fs (distBaseP app)).map (fun e =>
    { path := transformPath app rename (joinPath e.1)
      content := e.2
      mtime := if opts.noMtime then none else some (mtimeOf e.1) })

/-- A textual stand-in for the archive bytes written to the tarball file. -/
def encodeArchive (es : List TarEntry) : String :=
  es.foldr (fun e acc => e.path ++ "\n" ++ e.content ++ "\n" ++ acc) ""

/-- Step 5 as a filesystem action: write the archive file at tarballPath
(tar.c's only filesystem effect; the transform acts on entry metadata). -/
def archiveStep (app : String) (rename : Option String) (fs : FS)
    (mtimeOf : Path → Nat) : FS :=
  setFile (tarballP app) (encodeArchive (tarCreate tarBuildOpts app rename fs mtimeOf)) fs

/-- Outcome of a run of main: an early process.exit with a code and the
filesystem at that moment, or completion with the final filesystem. -/
inductive StepResult where
  | exited (code : Nat) (fs : FS)
  | completed (fs : FS)
deriving DecidableEq

/-- main of tar-build.mjs after the (external) build step: the browser-folder
check of line 96 exits with code 1 before anything is touched; otherwise
flatten, normalize, and archive run in order. -/
def runMain (app : String) (rename : Option String) (fs : FS)
    (mtimeOf : Path → Nat) : StepResult :=
  if dirExists fs (browserP app) then
    .completed (archiveStep app rename (normalizeIndex app (flattenMove app fs)) mtimeOf)
  else .exited 1 fs

/-! The failure report of the flatten step (tar-build.mjs lines 105-108):
spinner message, the caught error's message, and process.exit(1). -/

/-- What the user sees when a move fails partway through flattening. -/
structure FlattenReport where
  spinnerMsg : String
  errMsg : String
  exitCode : Nat
deriving DecidableEq

/-- The catch branch of step 2: the report depends only on the caught error,
never on the filesystem state or on which entries were already moved. -/
def flattenFailReport (_fs : FS) (err : String) : FlattenReport :=
  { spinnerMsg := "Failed to move /browser contents"
    errMsg := err
    exitCode := 1 }

/-! Path resolution (tar-build.mjs lines 55-66): plain derivations, no
validation of any kind. -/

/-- path.join for one extra segment; an empty segment is dropped as
path.join does. -/
def pathJoin (a b : String) : String := if b = "" then a else a ++ "/" ++ b

/-- All paths derived before the pipeline starts. -/
structure ResolvedPaths where
  projectPath : String
  distDir : String
  distBase : String
  browserDir : String
  outName : String
  tarballFile : String
deriving DecidableEq

/-- Outcome type for path resolution.  The invalidInput constructor is the
InvalidInputError the specification posits; the source has no code path that
produces it. -/
inductive ResolveOutcome where
  | ok (ps : ResolvedPaths)
  | invalidInput (msg : String)
deriving DecidableEq

/-- Is the outcome a success? -/
def ResolveOutcome.okOnly : ResolveOutcome → Bool
  | .ok _ => true
  | .invalidInput _ => false

/-- tar-build.mjs lines 55-66: derive every path by joins; no emptiness or
traversal check exists, so every input resolves successfully. -/
def resolvePaths (out projectPath : String) : ResolveOutcome :=
  .ok { projectPath := projectPath
        distDir := pathJoin projectPath ("dist")
        distBase := pathJoin (pathJoin projectPath ("dist")) out
        browserDir := pathJoin (pathJoin (pathJoin projectPath ("dist")) out) ("browser")
        outName := "dist_" ++ out ++ tarExt
        tarballFile := pathJoin projectPath ("dist_" ++ out ++ tarExt) }

/-! The older variant of the script kept in the repository (src/unnamed/
part_000): its archive step physically copies the tree when a rename is
requested. -/

/-- The older variant honors the compress flag for the extension. -/
def legacyExt (compress : Bool) : String := if compress then (".tar.gz") else ".tar"

/-- Tarball path of the older variant. -/
def tarballLegacyP (app : String) (compress : Bool) : Path :=
  ["dist_" ++ app ++ legacyExt compress]

/-- tar.c of the older variant: cwd is the dist directory and the single
source is the folder name, so entry paths drop the leading "dist" segment;
no noMtime option is set, so on-disk mtimes are recorded. -/
def legacyEntries (fs : FS) (folder : String) (mtimeOf : Path → Nat) : List TarEntry :=
  (filesUnder fs ["dist", folder]).map (fun e =>
    { path := joinPath (e.1.drop 1)
      content := e.2
      mtime := some (mtimeOf e.1) })

/-- Step 4 of the older variant (part_000 lines 123-166): without a rename,
archive dist/<appName> directly; with a rename, delete any directory already
at dist/<renameFolder>, copy the tree there, archive the copy, and remove
the copy afterwards. -/
def legacyArchiveStep (app : String) (rename : Option String) (compress : Bool)
    (fs : FS) (mtimeOf : Path → Nat) : FS :=
  match rename with
  | none =>
    setFile (tarballLegacyP app compress)
      (encodeArchive (legacyEntries fs app mtimeOf)) fs
  | some rn =>
    let tmp : Path := ["dist", rn]
    let fs1 := removeTree tmp fs
    let fs2 := copyTree (distBaseP app) tmp fs1
    let fs3 := setFile (tarballLegacyP app compress)
      (encodeArchive (legacyEntries fs2 rn mtimeOf)) fs2
    removeTree tmp fs3

/-! Concrete fixtures used by counterexamples and witnesses. -/

/-- Default options for a run `--out app` with no further flags. -/
def defaultOptsApp : CliOptions :=
  { out := "app", rename := none, noCompress := false, pathOpt := ".", skipBuild := false }

/-- A dist tree whose app folder itself contains a nested dist/app
subdirectory. -/
def nestedDistFS : FS := [(["dist", "app", "dist", "app", "x.js"], "z")]

/-- A constant mtime oracle. -/
def zeroMtime : Path → Nat := fun _ => 0

/-- An index.csr.html whose base href attribute is present but empty. -/
def emptyHrefFS : FS := [(["dist", "app", "index.csr.html"], "<base href=\"\">")]

/-- An index.csr.html with an ordinary nonempty base href. -/
def clinicCsr : String := "<p><base href=\"/clinic/\"></p>"

/-- State holding only that csr file. -/
def clinicFS : FS := [(["dist", "app", "index.csr.html"], clinicCsr)]

/-- A flatten in which a.js is still unmoved. -/
def unmovedAFS : FS := [(["dist", "app", "browser", "a.js"], "1")]

/-- A flatten in which b.js is still unmoved. -/
def unmovedBFS : FS := [(["dist", "app", "browser", "b.js"], "2")]

/-- A state with a populated app folder and a pre-existing dist/v2. -/
def preV2FS : FS :=
  [(["dist", "app", "main.js"], "x"), (["dist", "v2", "old.txt"], "y")]

/-- A state with one pre-existing file and one browser file that do not
collide. -/
def keepFS : FS :=
  [(["dist", "app", "keep.txt"], "k"), (["dist", "app", "browser", "new.js"], "n")]

/-- A state with no browser folder at all. -/
def noBrowserFS : FS := [(["dist", "app", "index.html"], "i")]

/-- Does `pat` occur as a contiguous run inside the character list? -/
def listHasSub (pat : List Char) : List Char → Bool
  | [] => pat.isEmpty
  | c :: rest => pat.isPrefixOf (c :: rest) || listHasSub pat rest

/-- Does `pat` occur as a substring of `s`? -/
def strContains (s pat : String) : Bool := listHasSub pat.data s.data

/-! General lemmas about the filesystem model. -/

/-- Unfolding lookupFile over a cons cell. -/
theorem lookupFile_cons (e : Path × String) (t : FS) (p : Path) :
    lookupFile (e :: t) p = if e.1 == p then some e.2 else lookupFile t p := by
  cases h : e.1 == p <;> simp [lookupFile, List.find?, h]

/-- A filter that keeps every file at `p` does not change the lookup at `p`. -/
theorem lookupFilterKeep (fs : FS) (keep : Path × String → Bool) (p : Path)
    (h : ∀ c, keep (p, c) = true) :
    lookupFile (fs.filter keep) p = lookupFile fs p := by
  induction fs with
  | nil => rfl
  | cons e t ih =>
    rw [List.filter_cons]
    cases he : e.1 == p with
    | true =>
      have hep : e.1 = p := eq_of_beq he
      have hke : keep e = true := by
        have h2 : e = (p, e.2) := by rw [← hep]
        rw [h2]; exact h e.2
      rw [hke]
      simp [lookupFile_cons, he]
    | false =>
      cases hk : keep e with
      | true => simp [lookupFile_cons, he, ih]
      | false => simp [lookupFile_cons, he, ih]

/-- A filter that drops every file at `p` removes the lookup at `p`. -/
theorem lookupFilterDrop (fs : FS) (keep : Path × String → Bool) (p : Path)
    (h : ∀ c, keep (p, c) = false) :
    lookupFile (fs.filter keep) p = none := by
  induction fs with
  | nil => rfl
  | cons e t ih =>
    rw [List.filter_cons]
    cases he : e.1 == p with
    | true =>
      have hep : e.1 = p := eq_of_beq he
      have hke : keep e = false := by
        have h2 : e = (p, e.2) := by rw [← hep]
        rw [h2]; exact h e.2
      simp [hke, ih]
    | false =>
      cases hk : keep e with
      | true => simp [hk, lookupFile_cons, he, ih]
      | false => simp [hk, ih]

/-- If nothing in the first list sits at `p`, lookup skips to the second. -/
theorem lookupAppend (l1 l2 : FS) (p : Path) (h : lookupFile l1 p = none) :
    lookupFile (l1 ++ l2) p = lookupFile l2 p := by
  induction l1 with
  | nil => rfl
  | cons e t ih =>
    rw [List.cons_append, lookupFile_cons]
    rw [lookupFile_cons] at h
    cases he : e.1 == p with
    | true => rw [he] at h; simp at h
    | false => rw [he] at h; simp at h ⊢; exact ih h

/-- When no entry sits at `p`, the lookup fails. -/
theorem lookupNoneOfAll (fs : FS) (p : Path) (h : ∀ e ∈ fs, (e.1 == p) = false) :
    lookupFile fs p = none := by
  induction fs with
  | nil => rfl
  | cons e t ih =>
    rw [lookupFile_cons, h e (by simp)]
    simp
    exact ih fun x hx => h x (by simp [hx])

/-- A member's path always resolves. -/
theorem lookupIsSomeOfMem (fs : FS) (e : Path × String) (he : e ∈ fs) :
    (lookupFile fs e.1).isSome = true := by
  induction fs with
  | nil => cases he
  | cons a t ih =>
    rw [lookupFile_cons]
    cases ha : a.1 == e.1 with
    | true => simp
    | false =>
      simp
      rcases List.mem_cons.mp he with h1 | h2
      · subst h1; simp at ha
      · exact ih h2

/-- A boolean prefix test certifies the split of the longer list. -/
theorem prefixOfSplit {α : Type} [BEq α] [LawfulBEq α] :
    ∀ (pre l : List α), pre.isPrefixOf l = true → l = pre ++ l.drop pre.length
  | [], l, _ => by simp
  | _ :: _, [], h => by simp [List.isPrefixOf] at h
  | a :: as, b :: bs, h => by
    simp only [List.isPrefixOf, Bool.and_eq_true] at h
    obtain ⟨h1, h2⟩ := h
    have hab : a = b := eq_of_beq h1
    subst hab
    simpa using congrArg (a :: ·) (prefixOfSplit as bs h2)

/-- A pointwise-false predicate makes any return false. -/
theorem anyFalse {α : Type} (q : α → Bool) (l : List α) (h : ∀ x ∈ l, q x = false) :
    l.any q = false := by
  induction l with
  | nil => rfl
  | cons a t ih =>
    rw [List.any_cons, h a (by simp)]
    simp only [Bool.false_or]
    exact ih fun x hx => h x (by simp [hx])

/-- The browser folder is not above the index.html path. -/
theorem browserNotLeadsIndex (app : String) :
    (browserP app).isPrefixOf (indexP app) = false := by
  have h : (("browser" : String) == "index.html") = false := by decide
  simp [browserP, indexP, List.isPrefixOf, h]

/-- index.html and index.csr.html live at different paths. -/
theorem indexBeqCsr (app : String) : (indexP app == csrP app) = false := by
  have h : indexP app ≠ csrP app := by
    have hne : ("index.html" : String) ≠ "index.csr.html" := by decide
    simp [indexP, csrP, hne]
  exact beq_eq_false_iff_ne.mpr h

/-- Symmetric form of the previous fact. -/
theorem csrBeqIndex (app : String) : (csrP app == indexP app) = false := by
  have h : csrP app ≠ indexP app := by
    have hne : ("index.csr.html" : String) ≠ "index.html" := by decide
    simp [indexP, csrP, hne]
  exact beq_eq_false_iff_ne.mpr h

/-! Claims C2, C4, C5, C7, C9. -/

/-- Claim C2 (code_bug evidence): on a default run (no --no-compress) the
code computes shouldCompress = true yet hardcodes the extension ".tar" and
passes gzip: false to tar.c, so the artifact is an uncompressed
dist_app.tar, never a .tar.gz; the older variant of the script in the
repository did derive ".tar.gz" from the same flag. -/
theorem compress_flag_ignored :
    shouldCompress defaultOptsApp = true ∧ tarExt = ".tar" ∧
    tarballName defaultOptsApp = "dist_app.tar" ∧ tarBuildOpts.gzip = false ∧
    legacyExt true = ".tar.gz" :=
  ⟨by decide, by decide, by decide, by decide, by decide⟩

/-- Claim C4 (amended): path resolution in tar-build.mjs performs no
validation whatsoever; it succeeds for every appName and project path,
including the empty string and traversal segments, and no code path
produces an InvalidInputError. -/
theorem resolver_never_fails (out projectPath : String) :
    (resolvePaths out projectPath).okOnly = true := rfl

/-- Claim C4 counterexample: with the empty appName the resolver does not
fail; it happily returns derived paths (note distBase collapses onto the
dist directory itself). -/
theorem resolver_accepts_empty_appname :
    resolvePaths "" "/proj" = ResolveOutcome.ok
      { projectPath := "/proj", distDir := "/proj/dist", distBase := "/proj/dist"
        browserDir := "/proj/dist/browser", outName := "dist_.tar"
        tarballFile := "/proj/dist_.tar" } := by
  decide

/-- Claim C5: when the browser build-output folder is absent, main exits
with code 1 at the step-2 check, before the normalizer and the archive
packager run, leaving the filesystem — in particular any file at the
archive output path — exactly as it was. -/
theorem missing_browser_halts_pipeline (app : String) (rename : Option String)
    (fs : FS) (mtimeOf : Path → Nat) (h : dirExists fs (browserP app) = false) :
    runMain app rename fs mtimeOf = StepResult.exited 1 fs := by
  simp [runMain, h]

/-- Concrete run of the C5 theorem. -/
theorem missing_browser_halts_pipeline_witness :
    dirExists noBrowserFS (browserP "app") = false ∧
    runMain "app" none noBrowserFS zeroMtime = StepResult.exited 1 noBrowserFS :=
  ⟨by decide,
   missing_browser_halts_pipeline "app" none noBrowserFS zeroMtime (by decide)⟩

/-- Claim C7 (amended): when a move fails partway through flattening, the
code emits a fixed spinner message plus the caught error's own message and
exits 1; the report carries no list of not-yet-moved entries. -/
theorem flatten_failure_report_generic (fs : FS) (err : String) :
    flattenFailReport fs err =
      { spinnerMsg := "Failed to move /browser contents", errMsg := err
        exitCode := 1 } := rfl

/-- Claim C7 counterexample: two failure states whose sets of unmoved
entries differ produce identical reports, so the report cannot include the
list of entries not yet moved. -/
theorem flatten_failure_report_no_entry_list :
    flattenFailReport unmovedAFS "EACCES: permission denied" =
      flattenFailReport unmovedBFS "EACCES: permission denied" ∧
    unmovedAFS ≠ unmovedBFS :=
  ⟨rfl, by decide⟩

/-- Claim C9: tar-build.mjs passes noMtime: true unconditionally, so the
archive produced from a tree is the same under any assignment of on-disk
modification times, and every recorded entry mtime is suppressed. -/
theorem archive_mtime_independent (app : String) (rename : Option String)
    (fs : FS) (m1 m2 : Path → Nat) :
    tarCreate tarBuildOpts app rename fs m1 = tarCreate tarBuildOpts app rename fs m2 ∧
    (tarCreate tarBuildOpts app rename fs m1).all (fun e => e.mtime == none) = true := by
  constructor
  · simp [tarCreate, tarBuildOpts]
  · simp [tarCreate, tarBuildOpts, List.all_map, Function.comp]
    intro e p c h1 h2
    subst h2
    rfl

/-! Claims C6 and C10: the flatten step. -/

/-- After the flatten step nothing remains at or below the browser folder. -/
theorem flattenMoveNoBrowser (app : String) (fs : FS) :
    ∀ e ∈ flattenMove app fs, (browserP app).isPrefixOf e.1 = false := by
  intro e he
  simp only [flattenMove, removeTree] at he
  have h := (List.mem_filter.mp he).2
  simpa using h

/-- The normalizer only ever adds the index.html path; every other entry
was already present. -/
theorem normalizeMem (app : String) (fs : FS) :
    ∀ e ∈ normalizeIndex app fs, e.1 = indexP app ∨ e ∈ fs := by
  intro e he
  simp only [normalizeIndex] at he
  by_cases hI : fileExists fs (indexP app) = true
  · rw [if_pos hI] at he
    exact Or.inr he
  · rw [if_neg hI] at he
    cases hc : lookupFile fs (csrP app) with
    | none => rw [hc] at he; exact Or.inr he
    | some c =>
      rw [hc] at he
      simp only [setFile] at he
      rcases List.mem_cons.mp he with h1 | h2
      · left; rw [h1]
      · right
        have h3 := (List.mem_filter.mp h2).1
        simp only [removeFile] at h3
        exact (List.mem_filter.mp h3).1

/-- A folder none of whose strict descendants exist is absent. -/
theorem dirExistsFalseOfAll (fs : FS) (p : Path)
    (h : ∀ e ∈ fs, p.isPrefixOf e.1 = false) : dirExists fs p = false := by
  simp only [dirExists]
  exact anyFalse _ _ fun e he => by simp [h e he]

/-- Claim C6: running the flatten and normalize stages twice in a row
yields the same tree as running them once: the first run consumes the
browser folder, so the second run stops at the existence check and leaves
the filesystem untouched. -/
theorem flatten_normalize_idempotent (app : String) (fs : FS) :
    flattenNormalize app (flattenNormalize app fs) = flattenNormalize app fs := by
  cases h : dirExists fs (browserP app) with
  | false =>
    have h1 : flattenNormalize app fs = fs := by simp [flattenNormalize, h]
    rw [h1]
    exact h1
  | true =>
    have h1 : flattenNormalize app fs = normalizeIndex app (flattenMove app fs) := by
      simp [flattenNormalize, h]
    have h2 : dirExists (normalizeIndex app (flattenMove app fs)) (browserP app) = false := by
      apply dirExistsFalseOfAll
      intro e he
      rcases normalizeMem app (flattenMove app fs) e he with hI | hM
      · rw [hI]; exact browserNotLeadsIndex app
      · exact flattenMoveNoBrowser app fs e hM
    rw [h1]
    simp [flattenNormalize, h2]

/-- Unfolding stripRoot on a successful strip. -/
theorem stripRootSome (pre q r : Path) (h : stripRoot pre q = some r) :
    q = pre ++ r := by
  simp only [stripRoot] at h
  by_cases hp : pre.isPrefixOf q = true
  · rw [if_pos hp] at h
    injection h with h1
    rw [← h1]
    exact prefixOfSplit pre q hp
  · rw [if_neg hp] at h
    cases h

/-- Claim C10: a DistTree file that is not below the browser folder and has
no same-named counterpart inside it is untouched by the flatten step. -/
theorem flatten_preserves_noncolliding (app : String) (fs : FS) (p : Path)
    (_hp : (distBaseP app).isPrefixOf p = true)
    (hb : (browserP app).isPrefixOf p = false)
    (hc : lookupFile fs (browserP app ++ p.drop (distBaseP app).length) = none) :
    lookupFile (flattenMove app fs) p = lookupFile fs p := by
  have hmoved : ∀ mv ∈ movedFiles (browserP app) (distBaseP app) fs,
      (mv.1 == p) = false := by
    intro mv hmv
    cases hq : mv.1 == p with
    | false => rfl
    | true =>
      exfalso
      obtain ⟨a, ha, hfa⟩ := List.mem_filterMap.mp hmv
      cases hs : stripRoot (browserP app) a.1 with
      | none => rw [hs] at hfa; cases hfa
      | some r =>
        cases r with
        | nil => rw [hs] at hfa; cases hfa
        | cons x xs =>
          rw [hs] at hfa
          injection hfa with hmv2
          have hp1 : mv.1 = distBaseP app ++ (x :: xs) := by rw [← hmv2]
          have hpe : p = distBaseP app ++ (x :: xs) := by
            rw [← eq_of_beq hq, hp1]
          have ha1 : a.1 = browserP app ++ (x :: xs) := stripRootSome _ _ _ hs
          have hdrop : p.drop (distBaseP app).length = x :: xs := by
            rw [hpe]; exact List.drop_left _ _
          have hnone : lookupFile fs a.1 = none := by
            rw [ha1, ← hdrop]; exact hc
          have hsome := lookupIsSomeOfMem fs a ha
          rw [hnone] at hsome
          simp at hsome
  have hstep1 : lookupFile (copyTree (browserP app) (distBaseP app) fs) p =
      lookupFile fs p := by
    simp only [copyTree]
    rw [lookupAppend _ _ _ (lookupNoneOfAll _ _ hmoved)]
    apply lookupFilterKeep
    intro c
    rw [anyFalse _ _ hmoved]
    rfl
  simp only [flattenMove, removeTree]
  rw [lookupFilterKeep _ _ _ fun c => by simp [hb]]
  exact hstep1

/-- Concrete run of the C10 theorem: keep.txt survives the flatten with its
content, while new.js is moved in beside it. -/
theorem flatten_preserves_noncolliding_witness :
    ((distBaseP "app").isPrefixOf (["dist", "app", "keep.txt"] : Path) = true ∧
     (browserP "app").isPrefixOf (["dist", "app", "keep.txt"] : Path) = false ∧
     lookupFile keepFS
       (browserP "app" ++ (["dist", "app", "keep.txt"] : Path).drop (distBaseP "app").length) = none) ∧
    lookupFile (flattenMove "app" keepFS) ["dist", "app", "keep.txt"] =
      lookupFile keepFS ["dist", "app", "keep.txt"] :=
  ⟨⟨by decide, by decide, by decide⟩,
   flatten_preserves_noncolliding "app" keepFS ["dist", "app", "keep.txt"]
     (by decide) (by decide) (by decide)⟩

/-! Claim C1: the rename transform on archive entry paths. -/

/-- An entry path below dist/app rewrites, by pure computation, to
dist/v2/ followed by the joined remainder. -/
theorem transformNested (y : String) (t : List String) :
    transformPath "app" (some "v2") (joinPath ("dist" :: "app" :: y :: t)) =
      String.mk (("dist/v2/").data ++ (joinPath (y :: t)).data) := rfl

/-- A list always passes the prefix test against itself plus a tail. -/
theorem isPrefixOfAppendSelf {α : Type} [BEq α] [LawfulBEq α] (pre l : List α) :
    pre.isPrefixOf (pre ++ l) = true := by
  induction pre with
  | nil => simp
  | cons a as ih => simp [List.isPrefixOf, ih]

/-- Extending a failing prefix pattern keeps it failing. -/
theorem isPrefixOfExtendFalse {α : Type} [BEq α] [LawfulBEq α] :
    ∀ (p q s : List α), p.isPrefixOf s = false → (p ++ q).isPrefixOf s = false
  | [], _, _, h => by simp at h
  | _ :: _, _, [], _ => rfl
  | a :: as, q, b :: bs, h => by
    simp only [List.cons_append, List.isPrefixOf]
    simp only [List.isPrefixOf] at h
    cases hab : a == b with
    | false => simp [hab]
    | true =>
      rw [hab] at h
      simp only [Bool.true_and] at h ⊢
      exact isPrefixOfExtendFalse as q bs h

/-- A prefix test no longer than the left part ignores the appended tail. -/
theorem isPrefixOfAppendStable {α : Type} [BEq α] [LawfulBEq α] :
    ∀ (p l x : List α), p.length ≤ l.length → p.isPrefixOf (l ++ x) = p.isPrefixOf l
  | [], _, _, _ => by simp
  | a :: as, [], _, h => by simp at h
  | a :: as, b :: bs, x, h => by
    simp only [List.cons_append, List.isPrefixOf]
    exact congrArg (fun z => a == b && z)
      (isPrefixOfAppendStable as bs x (Nat.le_of_succ_le_succ h))

/-- The rewritten prefix is a prefix of the result. -/
theorem strStartsV2 (l : List Char) :
    strStarts "dist/v2/" (String.mk (("dist/v2/").data ++ l)) = true := by
  show List.isPrefixOf ("dist/v2/").data (("dist/v2/").data ++ l) = true
  exact isPrefixOfAppendSelf _ _

/-- The original prefix never leads the rewritten path. -/
theorem strStartsAppFalse (l : List Char) :
    strStarts "dist/app/" (String.mk (("dist/v2/").data ++ l)) = false := by
  show List.isPrefixOf ("dist/app/").data (("dist/v2/").data ++ l) = false
  have hsplit : ("dist/app/").data = ("dist/app").data ++ ("/").data := by decide
  rw [hsplit]
  apply isPrefixOfExtendFalse
  rw [isPrefixOfAppendStable _ _ _ (by decide)]
  decide

/-- Claim C1 (amended): with appName "app" and rename "v2", every archive
entry path begins with dist/v2/ and none begins with dist/app/; the rewrite
is an anchored-prefix match, identity on any path that does not begin with
dist/app (so a nested dist/app/ later in a path is deliberately left
alone). -/
theorem rename_anchored_prefix_rewrite (fs : FS) (mtimeOf : Path → Nat) :
    (∀ e ∈ tarCreate tarBuildOpts "app" (some "v2") fs mtimeOf,
        strStarts "dist/v2/" e.path = true ∧ strStarts "dist/app/" e.path = false) ∧
    (∀ s : String, strStarts "dist/app" s = false →
        transformPath "app" (some "v2") s = s) := by
  constructor
  · intro e he
    simp only [tarCreate] at he
    obtain ⟨a, ha, hae⟩ := List.mem_map.mp he
    simp only [filesUnder] at ha
    obtain ⟨ha1, ha2⟩ := List.mem_filter.mp ha
    rw [Bool.and_eq_true] at ha2
    obtain ⟨hpre, hlen⟩ := ha2
    have hsplit := prefixOfSplit (distBaseP "app") a.1 hpre
    have hlt : (distBaseP "app").length < a.1.length := of_decide_eq_true hlen
    have hdrop : a.1.drop (distBaseP "app").length ≠ [] := by
      intro hnil
      have := List.length_drop (distBaseP "app").length a.1
      rw [hnil] at this
      simp at this
      omega
    cases hd : a.1.drop (distBaseP "app").length with
    | nil => exact absurd hd hdrop
    | cons y t =>
      rw [hd] at hsplit
      have hpath : e.path = transformPath "app" (some "v2") (joinPath a.1) := by
        rw [← hae]
      rw [hpath, hsplit]
      constructor
      · rw [show (distBaseP "app") ++ y :: t = "dist" :: "app" :: y :: t from rfl]
        rw [transformNested]
        exact strStartsV2 _
      · rw [show (distBaseP "app") ++ y :: t = "dist" :: "app" :: y :: t from rfl]
        rw [transformNested]
        exact strStartsAppFalse _
  · intro s hs
    simp [transformPath, anchoredReplace, hs]

/-- Concrete run of the C1 theorem on the nested fixture. -/
theorem rename_anchored_prefix_rewrite_witness :
    (strStarts "dist/v2/" ("dist/v2/dist/app/x.js") = true ∧
     strStarts "dist/app/" ("dist/v2/dist/app/x.js") = false) ∧
    transformPath "app" (some "v2") "other/path" = "other/path" :=
  ⟨(rename_anchored_prefix_rewrite nestedDistFS zeroMtime).1
      { path := "dist/v2/dist/app/x.js", content := "z", mtime := none } (by decide),
   (rename_anchored_prefix_rewrite nestedDistFS zeroMtime).2 "other/path" (by decide)⟩

/-- Claim C1 counterexample: a source tree nesting a dist/app directory
inside the app folder yields, after the rename, the single entry path
dist/v2/dist/app/x.js, which still contains the literal segment dist/app/;
the anchored rewrite touches only the leading occurrence. -/
theorem rename_nested_dist_app_persists :
    (tarCreate tarBuildOpts "app" (some "v2") nestedDistFS zeroMtime).map TarEntry.path =
      ["dist/v2/dist/app/x.js"] ∧
    strContains "dist/v2/dist/app/x.js" "dist/app/" = true :=
  ⟨by decide, by decide⟩

/-! Claim C8: what the archive step touches. -/

/-- Claim C8 (amended): the tar-build.mjs packager writes only the archive
file — every other path resolves exactly as before, with no temporary copy
of the tree; the older variant's packager, by contrast, stages a physical
copy at dist/(renameFolder) when a rename is supplied, first deleting
whatever already lives there and removing the copy again afterwards, so
after it runs nothing remains below dist/(renameFolder). -/
theorem archive_frame_property (app : String) (rename : Option String) (fs : FS)
    (mtimeOf : Path → Nat) (p : Path) (h : p ≠ tarballP app)
    (app2 rn : String) (compress : Bool) (fs2 : FS) (m2 : Path → Nat) (q : Path)
    (hq : (["dist", rn] : Path).isPrefixOf q = true) :
    lookupFile (archiveStep app rename fs mtimeOf) p = lookupFile fs p ∧
    lookupFile (legacyArchiveStep app2 (some rn) compress fs2 m2) q = none := by
  constructor
  · simp only [archiveStep, setFile]
    rw [lookupFile_cons]
    have h1 : (tarballP app == p) = false := beq_eq_false_iff_ne.mpr (Ne.symm h)
    rw [h1]
    simp only [Bool.false_eq_true, if_false]
    apply lookupFilterKeep
    intro c
    have h2 : (p == tarballP app) = false := beq_eq_false_iff_ne.mpr h
    simp [h2]
  · simp only [legacyArchiveStep, removeTree]
    apply lookupFilterDrop
    intro c
    simp [hq]

/-- Concrete run of the C8 theorem. -/
theorem archive_frame_property_witness :
    lookupFile (archiveStep "app" none preV2FS zeroMtime) ["dist", "app", "main.js"] =
      lookupFile preV2FS ["dist", "app", "main.js"] ∧
    lookupFile (legacyArchiveStep "app" (some "v2") true preV2FS zeroMtime)
      ["dist", "v2", "z"] = none :=
  archive_frame_property "app" none preV2FS zeroMtime ["dist", "app", "main.js"]
    (by decide) "app" "v2" true preV2FS zeroMtime ["dist", "v2", "z"] (by decide)

/-- Claim C8 counterexample: run on a state where dist/v2 already holds
old.txt, the older variant's packager with rename "v2" destroys that file —
the filesystem after archiving differs from the one before at a path other
than the archive output. -/
theorem legacy_archive_deletes_preexisting_rename_dir :
    lookupFile preV2FS ["dist", "v2", "old.txt"] = some "y" ∧
    lookupFile (legacyArchiveStep "app" (some "v2") true preV2FS zeroMtime)
      ["dist", "v2", "old.txt"] = none :=
  ⟨by decide, by decide⟩

/-! Claim C3: the entry-document normalizer. -/

/-- A successful quote split reassembles the input. -/
theorem splitQuoteSpec (s : List Char) : ∀ v a, splitQuote s = some (v, a) →
    s = v ++ '"' :: a := by
  induction s with
  | nil => intro v a h; simp [splitQuote] at h
  | cons c rest ih =>
    intro v a h
    rw [splitQuote] at h
    by_cases hc : (c == '"') = true
    · rw [if_pos hc] at h
      injection h with h'
      rw [Prod.mk.injEq] at h'
      obtain ⟨h1, h2⟩ := h'
      subst h1
      subst h2
      simp [eq_of_beq hc]
    · rw [if_neg hc] at h
      cases hs : splitQuote rest with
      | none => rw [hs] at h; cases h
      | some pr =>
        rw [hs] at h
        injection h with h'
        rw [Prod.mk.injEq] at h'
        obtain ⟨h1, h2⟩ := h'
        subst h1
        subst h2
        have hrest := ih pr.1 pr.2 hs
        rw [hrest]
        simp

/-- A successful base-href match reassembles the input around the pattern,
the captured value, and the closing quote. -/
theorem findBaseDecomp (s : List Char) : ∀ b v a, findBase s = some (b, v, a) →
    s = b ++ basePat ++ v ++ '"' :: a := by
  induction s with
  | nil => intro b v a h; simp [findBase] at h
  | cons c rest ih =>
    intro b v a h
    rw [findBase] at h
    by_cases hc : basePat.isPrefixOf (c :: rest) = true
    · rw [if_pos hc] at h
      cases hs : splitQuote ((c :: rest).drop basePat.length) with
      | none => rw [hs] at h; cases h
      | some pr =>
        rw [hs] at h
        injection h with h'
        rw [Prod.mk.injEq, Prod.mk.injEq] at h'
        obtain ⟨h1, h2, h3⟩ := h'
        subst h1
        subst h2
        subst h3
        have hsplit := prefixOfSplit basePat (c :: rest) hc
        have hq := splitQuoteSpec _ pr.1 pr.2 hs
        rw [hq] at hsplit
        rw [hsplit]
        simp [List.append_assoc]
    · rw [if_neg hc] at h
      cases hf : findBase rest with
      | none => rw [hf] at h; cases h
      | some bva =>
        rw [hf] at h
        injection h with h'
        rw [Prod.mk.injEq, Prod.mk.injEq] at h'
        obtain ⟨h1, h2, h3⟩ := h'
        subst h1
        subst h2
        subst h3
        have hrest := ih bva.1 bva.2.1 bva.2.2 hf
        rw [hrest]
        simp [List.append_assoc]

/-- A replacement template without a dollar sign expands to itself. -/
theorem jsExpandLiteral (matched before after : List Char) :
    ∀ t : List Char, t.all (fun c => !(c == '$')) = true →
      jsExpand matched before after t = t := by
  intro t
  induction t with
  | nil => intro _; rfl
  | cons c rest ih =>
    intro h
    rw [List.all_cons, Bool.and_eq_true] at h
    obtain ⟨h1, h2⟩ := h
    have hc : (c == '$') = false := by simpa using h1
    rw [jsExpand.eq_def]
    simp only [hc, Bool.false_eq_true, if_false]
    rw [ih h2]

/-- Claim C3 (amended): on a state where index.html is absent and
index.csr.html holds content c, normalization leaves index.html present
with the rewritten content and removes index.csr.html; when c has no base
href attribute the written file equals c byte for byte (and so also has
none); when the first base-href value of c is nonempty and free of dollar
signs the written file equals c byte for byte, so its base-href value is
the source's; when that value is the empty string the code's falsy default
kicks in and the attribute is rewritten to "/". -/
theorem normalize_csr_amended (app : String) (fs : FS) (c : String)
    (hIdx : lookupFile fs (indexP app) = none)
    (hCsr : lookupFile fs (csrP app) = some c) :
    lookupFile (normalizeIndex app fs) (indexP app) = some (updatedHtml c) ∧
    lookupFile (normalizeIndex app fs) (csrP app) = none ∧
    (findBase c.data = none → updatedHtml c = c) ∧
    (∀ b v a, findBase c.data = some (b, v, a) → v.isEmpty = false →
        v.all (fun ch => !(ch == '$')) = true → updatedHtml c = c) ∧
    (∀ b a, findBase c.data = some (b, [], a) →
        updatedHtml c = String.mk (b ++ basePat ++ '/' :: '"' :: a)) := by
  have hnorm : normalizeIndex app fs =
      setFile (indexP app) (updatedHtml c) (removeFile (csrP app) fs) := by
    simp [normalizeIndex, fileExists, hIdx, hCsr]
  refine ⟨?_, ?_, ?_, ?_, ?_⟩
  · rw [hnorm, setFile, lookupFile_cons]
    simp
  · rw [hnorm, setFile, lookupFile_cons, indexBeqCsr]
    simp only [Bool.false_eq_true, if_false]
    rw [lookupFilterKeep _ _ _ fun cc => by simp [csrBeqIndex]]
    simp only [removeFile]
    exact lookupFilterDrop _ _ _ fun cc => by simp
  · intro h
    simp [updatedHtml, jsReplaceBase, h]
  · intro b v a hf hne hnd
    have hdec := findBaseDecomp c.data b v a hf
    have hext : extractBaseHref c = String.mk v := by
      simp [extractBaseHref, hf, hne]
    have hall : (basePat ++ v ++ ['"']).all (fun ch => !(ch == '$')) = true := by
      rw [List.all_append, List.all_append]
      rw [hnd]
      rw [show basePat.all (fun ch => !(ch == '$')) = true from by decide]
      rfl
    have hstr : updatedHtml c =
        String.mk (b ++ jsExpand (basePat ++ v ++ ['"']) b a (basePat ++ v ++ ['"']) ++ a) := by
      rw [updatedHtml, hext]
      simp only [jsReplaceBase, hf]
    rw [hstr, jsExpandLiteral _ _ _ _ hall]
    conv_rhs => rw [show c = String.mk c.data from rfl, hdec]
    exact congrArg String.mk (by simp [List.append_assoc])
  · intro b a hf
    have hext : extractBaseHref c = "/" := by
      simp [extractBaseHref, hf]
    have hstr : updatedHtml c =
        String.mk (b ++ jsExpand (basePat ++ [] ++ ['"']) b a (basePat ++ ['/'] ++ ['"']) ++ a) := by
      rw [updatedHtml, hext]
      simp only [jsReplaceBase, hf]
    rw [hstr, jsExpandLiteral _ _ _ _ (by decide)]
    exact congrArg String.mk (by simp [List.append_assoc])

/-- Concrete run of the C3 theorem: an ordinary csr file is converted into
an identical index.html, and the csr file disappears. -/
theorem normalize_csr_amended_witness :
    lookupFile (normalizeIndex "app" clinicFS) (indexP "app") = some (updatedHtml clinicCsr) ∧
    lookupFile (normalizeIndex "app" clinicFS) (csrP "app") = none ∧
    updatedHtml clinicCsr = clinicCsr :=
  ⟨(normalize_csr_amended "app" clinicFS clinicCsr (by decide) (by decide)).1,
   (normalize_csr_amended "app" clinicFS clinicCsr (by decide) (by decide)).2.1,
   (normalize_csr_amended "app" clinicFS clinicCsr (by decide) (by decide)).2.2.2.1
     (("<p>").data) (("/clinic/").data) (("></p>").data)
     (by decide) (by decide) (by decide)⟩

/-- Claim C3 counterexample: when the source attribute is present but
empty, the code writes the new value "/" instead of keeping the source's
empty value, because the extraction uses JavaScript's falsy-or default. -/
theorem empty_base_href_rewritten_to_slash :
    lookupFile (normalizeIndex "app" emptyHrefFS) (indexP "app") =
      some "<base href=\"/\">" ∧
    lookupFile (normalizeIndex "app" emptyHrefFS) (csrP "app") = none ∧
    (findBase ("<base href=\"\">").data).map (fun bva => String.mk bva.2.1) =
      some "" ∧
    (findBase ("<base href=\"/\">").data).map (fun bva => String.mk bva.2.1) =
      some "/" :=
  ⟨by decide, by decide, by decide, by decide⟩

end NgTarbuild
